import Mathlib

/-!
Verification of the healwright self-healing locator engine.

This file gives a shallow embedding of the algorithmic core of the
repository — the strategy validator (`src/utils.ts validateStrategy`),
the locator builder (`buildLocator`), the cache-key computation
(`cacheKey`), the retry controller (`isRetryableError`, `withRetry`),
the candidate ranker (`rankCandidates`), the lenient JSON decoder
(`src/providers/types.ts cleanJson`), the provider error routing
(`src/providers/openai.ts`, `local.ts`), the strategy picker
(`src/healwright.ts pickValid`) and the resolution state machine
(`healAction`) — and proves the spec's testable properties about them.

JavaScript strings are modelled as Lean `String`s (operations work on
`List Char`), JS numbers that hold integers as `Int`/`Nat`, fallible
operations as `Except`, and `undefined`/`null` fields as `Option`.
-/

set_option maxHeartbeats 1000000

namespace Healwright

/-! ## JS string helpers -/

/-- Substring scan: does `sub` occur contiguously in `l`? -/
def listHasSub (sub : List Char) : List Char → Bool
  | [] => sub.isEmpty
  | c :: t => sub.isPrefixOf (c :: t) || listHasSub sub t

/-- JS `a.includes(b)`: `b` occurs as a substring of `a`. -/
def jsIncludes (s sub : String) : Bool :=
  listHasSub sub.toList s.toList

/-- A JS-truthiness test for an optional string field: `!x` is true for
`undefined`, `null` and the empty string. -/
def jsBlank : Option String → Bool
  | none => true
  | some s => s == ""

/-! ## Strategy model

The tagged `Strategy` union (types.ts, spec §3): 8 kinds, handled by the
`switch` statements of `utils.ts` (`buildLocator`, `validateStrategy`).
Optional fields model the sparse, partially-null zod schema. -/

inductive StrategyType where
  | testid
  | role
  | label
  | placeholder
  | text
  | altText
  | title
  | css
deriving DecidableEq, Repr

structure StrategyT where
  type : StrategyType
  value : Option String := none
  selector : Option String := none
  role : Option String := none
  name : Option String := none
  text : Option String := none
  exact : Option Bool := none
deriving DecidableEq, Repr

/-- `validateStrategy` (src/utils.ts): checks the one required field per
kind; returns a human-readable missing-field message or `none`. -/
def validateStrategy (s : StrategyT) : Option String :=
  match s.type with
  | .testid => if jsBlank s.value then some "missing 'value'" else none
  | .role => if jsBlank s.role then some "missing 'role'" else none
  | .label | .placeholder | .text | .altText | .title =>
      if jsBlank s.text then some "missing 'text'" else none
  | .css => if jsBlank s.selector then some "missing 'selector'" else none

/-- The claim's notion of "the one required field for that kind"
(spec §3): `value` for testid, `role` for role, `text` for
label/placeholder/text/altText/title, `selector` for css. -/
def requiredField (s : StrategyT) : Option String :=
  match s.type with
  | .testid => s.value
  | .role => s.role
  | .label | .placeholder | .text | .altText | .title => s.text
  | .css => s.selector

/-! ## buildLocator (src/utils.ts)

The result of `buildLocator` is a Playwright locator; we model it by which
driver construction is invoked with which arguments. -/

inductive LocatorSpec where
  | cssLoc (selector : String)
  | roleLoc (role : String) (name : Option String) (exact : Bool)
  | labelLoc (text : String) (exact : Option Bool)
  | placeholderLoc (text : String) (exact : Option Bool)
  | textLoc (text : String) (exact : Option Bool)
  | altTextLoc (text : String) (exact : Option Bool)
  | titleLoc (text : String) (exact : Option Bool)
deriving DecidableEq, Repr

/-- JS `s.replace(/"/g, '\\"')`: backslash-escape every double quote. -/
def escapeQuotesL (l : List Char) : List Char :=
  (l.map (fun c => if c == '"' then ['\\', '"'] else [c])).flatten

/-- JS `s.replace(/"/g, ...)`: backslash-escape every double quote. -/
def escapeQuotes (s : String) : String := String.mk (escapeQuotesL s.toList)

/-- The CSS union selector `buildLocator` constructs for a testid
strategy: all five conventional test-id attributes, value escaped. -/
def testidSelector (value : String) : String :=
  let v := escapeQuotes value
  "[data-testid=\"" ++ v ++ "\"],[data-test=\"" ++ v ++ "\"],[data-test-id=\""
    ++ v ++ "\"],[data-qa=\"" ++ v ++ "\"],[data-cy=\"" ++ v ++ "\"]"

/-- `buildLocator` (src/utils.ts): build a driver locator from a strategy,
throwing when the required field is missing. -/
def buildLocator (s : StrategyT) : Except String LocatorSpec :=
  match s.type with
  | .testid =>
      if jsBlank s.value then .error "testid strategy requires 'value'"
      else .ok (.cssLoc (testidSelector (s.value.getD "")))
  | .role =>
      if jsBlank s.role then .error "role strategy requires 'role'"
      else .ok (.roleLoc (s.role.getD "") s.name (s.exact.getD true))
  | .label =>
      if jsBlank s.text then .error "label strategy requires 'text'"
      else .ok (.labelLoc (s.text.getD "") s.exact)
  | .placeholder =>
      if jsBlank s.text then .error "placeholder strategy requires 'text'"
      else .ok (.placeholderLoc (s.text.getD "") s.exact)
  | .text =>
      if jsBlank s.text then .error "text strategy requires 'text'"
      else .ok (.textLoc (s.text.getD "") s.exact)
  | .altText =>
      if jsBlank s.text then .error "altText strategy requires 'text'"
      else .ok (.altTextLoc (s.text.getD "") s.exact)
  | .title =>
      if jsBlank s.text then .error "title strategy requires 'text'"
      else .ok (.titleLoc (s.text.getD "") s.exact)
  | .css =>
      if jsBlank s.selector then .error "css strategy requires 'selector'"
      else .ok (.cssLoc (s.selector.getD ""))

/-! ## cacheKey (src/utils.ts)

`cacheKey(page, action, contextName)` parses `page.url()` with the WHATWG
`new URL(...)` and keeps `origin + pathname`. We model the URL parse for
absolute `scheme://authority/path?query#fragment` URLs: the fragment
starts at the first `#`, the query at the first `?` before it; host-case
and percent-encoding normalization are not modelled. -/

def schemeSplit : List Char → Option (List Char × List Char)
  | [] => none
  | ':' :: '/' :: '/' :: rest => some ([':', '/', '/'], rest)
  | c :: rest =>
      match schemeSplit rest with
      | none => none
      | some (a, b) => some (c :: a, b)

/-- Models `new URL(url).origin + new URL(url).pathname`. -/
def urlOriginPathname (url : String) : String :=
  let base := (url.toList.takeWhile (· != '#')).takeWhile (· != '?')
  match schemeSplit base with
  | none => String.mk base
  | some (pre, rest) =>
      let host := rest.takeWhile (· ≠ '/')
      let path := rest.dropWhile (· ≠ '/')
      String.mk (pre ++ host ++ (if path.isEmpty then ['/'] else path))

/-- `cacheKey` (src/utils.ts). The first argument is `page.url()`. -/
def cacheKey (url : String) (action : String) (contextName : String) : String :=
  action ++ "::" ++ urlOriginPathname url ++ "::" ++ contextName

/-! ## Retry controller (src/utils.ts) -/

/-- The shape of the JS error values `isRetryableError` inspects:
`status`, `statusCode`, `response.status`, `code`, `message`. -/
structure JsError where
  status : Option Int := none
  statusCode : Option Int := none
  responseStatus : Option Int := none
  code : Option String := none
  message : Option String := none
deriving DecidableEq, Repr

/-- The `error?.status ?? error?.statusCode ?? error?.response?.status`
chain; `none` models `undefined` (also for a `null` error). -/
def effectiveStatus (err : Option JsError) : Option Int :=
  match err with
  | none => none
  | some e =>
      match e.status with
      | some s => some s
      | none =>
          match e.statusCode with
          | some s => some s
          | none => e.responseStatus

/-- `isRetryableError` (src/utils.ts): transient errors worth retrying. -/
def isRetryableError (err : Option JsError) : Bool :=
  let status := effectiveStatus err
  if (match status with
      | some s => s == 429 || decide (s ≥ 500)
      | none => false) then
    true
  else
    let code := err.bind (fun e => e.code)
    if code == some "ECONNRESET" || code == some "ETIMEDOUT"
        || code == some "ENOTFOUND" then
      true
    else
      let msg := String.toLower ((err.bind (fun e => e.message)).getD "")
      jsIncludes msg "rate limit" || jsIncludes msg "timeout"
        || jsIncludes msg "overloaded"

/-- `withRetry` (src/utils.ts), unfolded from `attempt`: the loop body.
`fn i` is the outcome of the `(i+1)`-th call of `fn`. The result carries
the value or thrown error, the number of calls made, and the list of
backoff delays slept between retries. (The `throw lastError` after the
source loop is unreachable: every iteration returns or throws.) -/
def withRetryAux {T : Type} (fn : Nat → Except (Option JsError) T)
    (base : Nat) (maxRetries : Nat) (attempt : Nat) :
    Except (Option JsError) T × Nat × List Nat :=
  match fn attempt with
  | .ok v => (.ok v, 1, [])
  | .error e =>
      if h : attempt < maxRetries ∧ isRetryableError e = true then
        let r := withRetryAux fn base maxRetries (attempt + 1)
        (r.1, r.2.1 + 1, (base * 2 ^ attempt) :: r.2.2)
      else
        (.error e, 1, [])
termination_by maxRetries - attempt
decreasing_by omega

/-- `withRetry(fn, maxRetries = 1, baseDelayMs = 1000)` (src/utils.ts). -/
def withRetry {T : Type} (fn : Nat → Except (Option JsError) T)
    (maxRetries : Nat) (base : Nat) :
    Except (Option JsError) T × Nat × List Nat :=
  withRetryAux fn base maxRetries 0

/-! ## cleanJson (src/providers/types.ts) -/

def jsIsSpace (c : Char) : Bool :=
  c == ' ' || c == '\t' || c == '\n' || c == '\r' || c == '\x0c' || c == '\x0b'
def jsTrim (l : List Char) : List Char :=
  ((l.dropWhile jsIsSpace).reverse.dropWhile jsIsSpace).reverse

def stripFenceOpenF : Nat → Bool → List Char → List Char
  | 0, _, l => l
  | _ + 1, _, [] => []
  | fuel + 1, atStart, '`' :: '`' :: '`' :: rest =>
      if atStart then
        let l1 := if ['j', 's', 'o', 'n'].isPrefixOf rest then rest.drop 4 else rest
        let ws := l1.takeWhile jsIsSpace
        stripFenceOpenF fuel (ws.getLast? == some '\n') (l1.dropWhile jsIsSpace)
      else
        '`' :: stripFenceOpenF fuel false ('`' :: '`' :: rest)
  | fuel + 1, _, c :: cs => c :: stripFenceOpenF fuel (c == '\n') cs

def stripFenceOpen (l : List Char) : List Char :=
  stripFenceOpenF (l.length + 1) true l

def stripFenceCloseF : Nat → List Char → List Char
  | 0, l => l
  | _ + 1, [] => []
  | fuel + 1, '`' :: '`' :: '`' :: rest =>
      let run := rest.takeWhile jsIsSpace
      let after := rest.dropWhile jsIsSpace
      if after.isEmpty then []
      else
        let tailNoNl := run.reverse.takeWhile (· != '\n')
        if tailNoNl.length == run.length then
          '`' :: stripFenceCloseF fuel ('`' :: '`' :: rest)
        else
          stripFenceCloseF fuel (run.drop (run.length - 1 - tailNoNl.length) ++ after)
  | fuel + 1, c :: cs => c :: stripFenceCloseF fuel cs

def stripFenceClose (l : List Char) : List Char :=
  stripFenceCloseF (l.length + 1) l

def stripLineCommentLine (line : List Char) : List Char :=
  let ws := line.takeWhile jsIsSpace
  let rest := line.dropWhile jsIsSpace
  if ['/', '/'].isPrefixOf rest then ws else line
def stripLineComments (l : List Char) : List Char :=
  List.intercalate ['\n'] ((l.splitOn '\n').map stripLineCommentLine)

def afterStarSlash : List Char → List Char
  | [] => []
  | '*' :: '/' :: rest => rest
  | _ :: rest => afterStarSlash rest

def stripBlockCommentsF : Nat → List Char → List Char
  | 0, l => l
  | _ + 1, [] => []
  | fuel + 1, '/' :: '*' :: rest =>
      if listHasSub ['*', '/'] rest then stripBlockCommentsF fuel (afterStarSlash rest)
      else '/' :: stripBlockCommentsF fuel ('*' :: rest)
  | fuel + 1, c :: cs => c :: stripBlockCommentsF fuel cs

def stripBlockComments (l : List Char) : List Char :=
  stripBlockCommentsF (l.length + 1) l

def stripTrailingCommasF : Nat → List Char → List Char
  | 0, l => l
  | _ + 1, [] => []
  | fuel + 1, ',' :: rest =>
      match rest.dropWhile jsIsSpace with
      | b :: rest2 =>
          if b == '}' || b == ']' then b :: stripTrailingCommasF fuel rest2
          else ',' :: stripTrailingCommasF fuel rest
      | [] => ',' :: stripTrailingCommasF fuel rest
  | fuel + 1, c :: cs => c :: stripTrailingCommasF fuel cs

def stripTrailingCommas (l : List Char) : List Char :=
  stripTrailingCommasF (l.length + 1) l

def spanCut (oc cc : Char) : List Char → Nat → Bool → Bool → List Char
  | [], _, _, _ => []
  | ch :: rest, depth, inStr, esc =>
      if esc then ch :: spanCut oc cc rest depth inStr false
      else if ch == '\\' then ch :: spanCut oc cc rest depth inStr true
      else if ch == '"' then ch :: spanCut oc cc rest depth (!inStr) false
      else if ch == cc && !inStr && depth == 1 then [ch]
      else if inStr then ch :: spanCut oc cc rest depth inStr false
      else if ch == oc then ch :: spanCut oc cc rest (depth + 1) inStr false
      else if ch == cc then ch :: spanCut oc cc rest (depth - 1) inStr false
      else ch :: spanCut oc cc rest depth inStr false

def extractBracketSpan (l : List Char) : List Char :=
  let pre := l.takeWhile (fun c => !(c == '{' || c == '['))
  match l.drop pre.length with
  | [] => l
  | oc :: rest =>
      let cc := if oc == '{' then '}' else ']'
      spanCut oc cc (oc :: rest) 0 false false

def escapeBareIn (target esc : Char) : Bool → List Char → List Char
  | _, [] => []
  | seenQuote, x :: rest =>
      if x == target && seenQuote && rest.contains '"' then
        '\\' :: esc :: escapeBareIn target esc seenQuote rest
      else
        x :: escapeBareIn target esc (seenQuote || x == '"') rest

def jsonWs (c : Char) : Bool :=
  c == ' ' || c == '\t' || c == '\n' || c == '\r'
def isHexDigit (c : Char) : Bool :=
  c.isDigit || (97 ≤ c.toNat && c.toNat ≤ 102) || (65 ≤ c.toNat && c.toNat ≤ 70)
def parseStringBody : List Char → Option (List Char)
  | [] => none
  | '"' :: rest => some rest
  | '\\' :: 'u' :: a :: b :: c :: d :: rest =>
      if isHexDigit a && isHexDigit b && isHexDigit c && isHexDigit d then
        parseStringBody rest
      else none
  | '\\' :: e :: rest =>
      if e == '"' || e == '\\' || e == '/' || e == 'b' || e == 'f'
          || e == 'n' || e == 'r' || e == 't' then
        parseStringBody rest
      else none
  | ch :: rest =>
      if ch.toNat < 32 then none else parseStringBody rest
def parseExpPart : List Char → Option (List Char)
  | [] => some []
  | e :: r =>
      if e == 'e' || e == 'E' then
        let r1 := match r with
          | '+' :: rr => rr
          | '-' :: rr => rr
          | _ => r
        match r1 with
        | c :: rest => if c.isDigit then some (rest.dropWhile Char.isDigit) else none
        | [] => none
      else some (e :: r)
def parseFracPart : List Char → Option (List Char)
  | '.' :: r =>
      match r with
      | c :: rest => if c.isDigit then parseExpPart (rest.dropWhile Char.isDigit) else none
      | [] => none
  | l => parseExpPart l
def parseNumber (l : List Char) : Option (List Char) :=
  let l1 := match l with
    | '-' :: r => r
    | _ => l
  match l1 with
  | c :: rest =>
      if c == '0' then parseFracPart rest
      else if c.isDigit then parseFracPart (rest.dropWhile Char.isDigit)
      else none
  | [] => none
mutual
def jsonVal : Nat → List Char → Option (List Char)
  | 0, _ => none
  | fuel + 1, l =>
      match l.dropWhile jsonWs with
      | '{' :: rest =>
          match rest.dropWhile jsonWs with
          | '}' :: r2 => some r2
          | _ =>
              match jsonMember fuel rest with
              | some r => jsonMembersCont fuel r
              | none => none
      | '[' :: rest =>
          match rest.dropWhile jsonWs with
          | ']' :: r2 => some r2
          | _ =>
              match jsonVal fuel rest with
              | some r => jsonElemsCont fuel r
              | none => none
      | '"' :: rest => parseStringBody rest
      | 't' :: 'r' :: 'u' :: 'e' :: rest => some rest
      | 'f' :: 'a' :: 'l' :: 's' :: 'e' :: rest => some rest
      | 'n' :: 'u' :: 'l' :: 'l' :: rest => some rest
      | l2 => parseNumber l2
def jsonMember : Nat → List Char → Option (List Char)
  | 0, _ => none
  | fuel + 1, l =>
      match l.dropWhile jsonWs with
      | '"' :: rest =>
          match parseStringBody rest with
          | some r2 =>
              match r2.dropWhile jsonWs with
              | ':' :: r4 => jsonVal fuel r4
              | _ => none
          | none => none
      | _ => none
def jsonMembersCont : Nat → List Char → Option (List Char)
  | 0, _ => none
  | fuel + 1, l =>
      match l.dropWhile jsonWs with
      | '}' :: rest => some rest
      | ',' :: rest =>
          match jsonMember fuel rest with
          | some r => jsonMembersCont fuel r
          | none => none
      | _ => none
def jsonElemsCont : Nat → List Char → Option (List Char)
  | 0, _ => none
  | fuel + 1, l =>
      match l.dropWhile jsonWs with
      | ']' :: rest => some rest
      | ',' :: rest =>
          match jsonVal fuel rest with
          | some r => jsonElemsCont fuel r
          | none => none
      | _ => none
end
def jsonValid (l : List Char) : Bool :=
  match jsonVal (l.length + 1) l with
  | some rest => (rest.dropWhile jsonWs).isEmpty
  | none => false

def hasTrailingCommaPat : List Char → Bool
  | [] => false
  | ',' :: rest =>
      match rest.dropWhile jsIsSpace with
      | b :: _ => if b == '}' || b == ']' then true else hasTrailingCommaPat rest
      | [] => hasTrailingCommaPat rest
  | _ :: cs => hasTrailingCommaPat cs

def lineStartAfter (st : Bool) (m : List Char) : Bool :=
  match m.getLast? with
  | some c => c == '\n'
  | none => st

def cleanJsonFinish (s4 : List Char) : String :=
  if jsonValid s4 then String.mk s4
  else
    String.mk (jsTrim (stripTrailingCommas (escapeBareIn '\t' 't' false
      (escapeBareIn '\n' 'n' false (extractBracketSpan s4)))))

def cleanJson (raw : String) : String :=
  cleanJsonFinish (stripTrailingCommas (stripBlockComments (stripLineComments
    (jsTrim (stripFenceClose (stripFenceOpen raw.toList))))))

example : cleanJson "\x7b\"a\":\"/*x*/\"\x7d" = "\x7b\"a\":\"\"\x7d" := by decide
example : cleanJson "```json\n\x7b\"a\": 1,\x7d\n```" = "\x7b\"a\": 1\x7d" := by decide
example : cleanJson "Here it is: \x7b\"a\": 1\x7d thanks" = "\x7b\"a\": 1\x7d" := by decide
example : cleanJson "\x7b\"a\": 1\x7d" = "\x7b\"a\": 1\x7d" := by decide
example : cleanJson "\x7b\"a\":\",,]\"\x7d" = "\x7b\"a\":\",]\"\x7d" := by decide

def fenceWrap (body : String) : String := "```json\n" ++ body ++ "\n```"

/-! ## CSS attribute-selector model (for the testid union selector) -/

def parseAttrName : List Char → Option (List Char × List Char)
  | [] => none
  | '=' :: rest => some ([], rest)
  | ']' :: _ => none
  | ',' :: _ => none
  | '"' :: _ => none
  | c :: rest =>
      match parseAttrName rest with
      | some (n, r) => some (c :: n, r)
      | none => none

def parseAttrValue : List Char → Option (List Char × List Char)
  | [] => none
  | '"' :: rest => some ([], rest)
  | '\\' :: c :: rest =>
      match parseAttrValue rest with
      | some (v, r) => some (c :: v, r)
      | none => none
  | '\\' :: [] => none
  | c :: rest =>
      match parseAttrValue rest with
      | some (v, r) => some (c :: v, r)
      | none => none

def parseAttrSelectors : List Char → Option (List (String × String))
  | '[' :: rest =>
      match h1 : parseAttrName rest with
      | none => none
      | some (name, r1) =>
          match r1 with
          | '"' :: r2 =>
              match h2 : parseAttrValue r2 with
              | none => none
              | some (v, r3) =>
                  match r3 with
                  | ']' :: [] => some [(String.mk name, String.mk v)]
                  | ']' :: ',' :: r4 =>
                      match parseAttrSelectors r4 with
                      | some more => some ((String.mk name, String.mk v) :: more)
                      | none => none
                  | _ => none
          | _ => none
  | _ => none
termination_by l => l.length
decreasing_by
  have key1 : ∀ (l : List Char) (p : List Char × List Char),
      parseAttrName l = some p → p.2.length < l.length := by
    intro l
    induction l using parseAttrName.induct <;> intro p hp <;>
      simp_all [parseAttrName] <;>
      (try rcases hp with ⟨rfl, rfl⟩) <;> simp_all <;> omega
  have key2 : ∀ (l : List Char) (p : List Char × List Char),
      parseAttrValue l = some p → p.2.length < l.length := by
    intro l
    induction l using parseAttrValue.induct <;> intro p hp <;>
      simp_all [parseAttrValue] <;>
      (try rcases hp with ⟨rfl, rfl⟩) <;> simp_all <;> omega
  have k1 := key1 rest (name, '"' :: r2) h1
  have k2 := key2 r2 (v, ']' :: ',' :: r4) h2
  simp only [List.length_cons] at *
  omega
def getAttr (el : List (String × String)) (name : String) : Option String :=
  match el.find? (fun p => p.1 == name) with
  | some p => some p.2
  | none => none

def cssMatches (selector : String) (el : List (String × String)) : Option Bool :=
  match parseAttrSelectors selector.toList with
  | none => none
  | some pairs => some (pairs.any (fun p => getAttr el p.1 == some p.2))

/-! ## rankCandidates (src/utils.ts) -/

def jsTruthy : Option String → Bool
  | none => false
  | some s => !(s == "")

structure Candidate where
  tag : String
  hid : Bool := false
  role : Option String := none
  aria : Option String := none
  name : Option String := none
  ph : Option String := none
  typeAttr : Option String := none
  href : Option String := none
  alt : Option String := none
  title : Option String := none
  forAttr : Option String := none
  id : Option String := none
  cls : Option String := none
  tid : Option String := none
  txt : Option String := none
deriving DecidableEq, Repr

def stopWords : List String :=
  ["the", "for", "and", "with", "that", "this", "from", "into", "field", "element"]

def isWordChar (c : Char) : Bool := c.isAlphanum || c == '_'

def wordRunsAux : List Char → List Char → List String
  | [], acc => if acc.isEmpty then [] else [String.mk acc.reverse]
  | c :: cs, acc =>
      if isWordChar c then wordRunsAux cs (c :: acc)
      else if acc.isEmpty then wordRunsAux cs []
      else String.mk acc.reverse :: wordRunsAux cs []

def containsWordB (pat : List Char) : Bool → List Char → Bool
  | _, [] => false
  | prevW, c :: cs =>
      (!prevW && pat.isPrefixOf (c :: cs) &&
        (match (c :: cs).drop pat.length with
         | [] => true
         | d :: _ => !isWordChar d))
      || containsWordB pat (isWordChar c) cs

def containsAnyWord (pats : List String) (s : String) : Bool :=
  pats.any (fun p => containsWordB p.toList false s.toLower.toList)

def inferTag (c : String) : List String :=
  if containsAnyWord ["button", "btn", "submit", "reset", "click"] c then ["button", "input"]
  else if containsAnyWord ["link", "anchor", "nav"] c then ["a"]
  else if containsAnyWord ["input", "text", "email", "password", "search", "phone",
    "tel", "url", "number", "name"] c then ["input", "textarea"]
  else if containsAnyWord ["checkbox", "check", "agree", "subscribe", "toggle"] c then
    ["input", "label"]
  else if containsAnyWord ["radio"] c then ["input"]
  else if containsAnyWord ["select", "dropdown", "combo"] c then ["select"]
  else if containsAnyWord ["textarea", "comment"] c then ["textarea"]
  else if containsAnyWord ["image", "img", "icon", "logo"] c then ["img"]
  else if containsAnyWord ["label"] c then ["label"]
  else if containsAnyWord ["list item", "li"] c then ["li"]
  else []

def textFields (cand : Candidate) : List String :=
  (([cand.aria, cand.txt, cand.ph, cand.name, cand.tid, cand.alt, cand.title,
     cand.id, cand.forAttr, cand.role].filterMap id).filter
    (fun v => !(v == ""))).map String.toLower

def scoreCand (ctx : String) (ctxWords : List String) (expectedTags : List String)
    (cand : Candidate) : Nat :=
  let texts := textFields cand
  let allText := String.intercalate " " texts
  (if texts.any (fun t => jsIncludes t ctx) then 15 else 0)
    + (if texts.any (fun t => jsIncludes ctx t && decide (3 ≤ t.length)) then 8 else 0)
    + 3 * ctxWords.countP (fun w => jsIncludes allText w)
    + (if !expectedTags.isEmpty && expectedTags.contains cand.tag.toLower then 5 else 0)
    + (if (cand.role.getD "").toLower != ""
          && jsIncludes ctx ((cand.role.getD "").toLower) then 5 else 0)
    + (if jsTruthy cand.tid then 2 else 0)
    + (if !cand.hid then 1 else 0)

structure Scored where
  cand : Candidate
  score : Nat
  idx : Nat
deriving DecidableEq, Repr

def rankOrder (a b : Scored) : Prop :=
  b.score < a.score ∨ (a.score = b.score ∧ a.idx ≤ b.idx)

instance : DecidableRel rankOrder := fun a b => by
  unfold rankOrder
  infer_instance

instance : IsTotal Scored rankOrder :=
  ⟨by intro a b; unfold rankOrder; omega⟩

instance : IsTrans Scored rankOrder :=
  ⟨by intro a b c; unfold rankOrder; omega⟩

def ctxWordsOf (contextName : String) : List String :=
  (wordRunsAux contextName.toLower.toList []).filter
    (fun w => decide (3 ≤ w.length) && !stopWords.contains w)

def scoreOf (contextName : String) (cand : Candidate) : Nat :=
  scoreCand contextName.toLower (ctxWordsOf contextName) (inferTag contextName) cand

def scoredList (candidates : List Candidate) (contextName : String) : List Scored :=
  candidates.mapIdx (fun i c => ⟨c, scoreOf contextName c, i⟩)

def rankScored (candidates : List Candidate) (contextName : String) : List Scored :=
  List.insertionSort rankOrder (scoredList candidates contextName)

def rankCandidates (candidates : List Candidate) (contextName : String) (limit : Nat) :
    List Candidate :=
  if candidates.length ≤ limit then candidates
  else ((rankScored candidates contextName).take limit).map (fun s => s.cand)

/-! ## Heal plans and pickValid (src/healwright.ts)

A heal plan is the AI's ranked candidate list. `pickValid` walks the first
`maxAiTries` candidates in order and returns the first that passes
validation, resolves to exactly one DOM match, and is visible. Page state
is abstracted as a probe giving each built locator's match count and
visibility, either of which may throw. -/

structure PlanCand where
  strategy : StrategyT
  confidence : Nat
  why : String

structure HealPlanT where
  candidates : List PlanCand

structure PageProbe where
  countOf : LocatorSpec → Except String Nat
  visibleOf : LocatorSpec → Except String Bool

/-- The loop body of `pickValid`: `continue` on a validation error, a
thrown `buildLocator`/`count`/`isVisible`, a count other than 1, or an
invisible match; return the candidate otherwise. -/
def pickValidGo (probe : PageProbe) : List PlanCand → Option PlanCand
  | [] => none
  | c :: rest =>
      if (validateStrategy c.strategy).isSome then pickValidGo probe rest
      else
        match buildLocator c.strategy with
        | .error _ => pickValidGo probe rest
        | .ok loc =>
            match probe.countOf loc with
            | .error _ => pickValidGo probe rest
            | .ok count =>
                if count != 1 then pickValidGo probe rest
                else
                  match probe.visibleOf loc with
                  | .error _ => pickValidGo probe rest
                  | .ok visible =>
                      if visible then some c else pickValidGo probe rest

/-- `opts?.maxAiTries ?? 4`: the candidate-validation budget default. -/
def maxAiTriesOf (opt : Option Nat) : Nat := opt.getD 4

/-- `pickValid` (src/healwright.ts): scan `plan.candidates.slice(0, maxAiTries)`. -/
def pickValid (probe : PageProbe) (maxAiTries : Nat) (plan : HealPlanT) :
    Option PlanCand :=
  pickValidGo probe (plan.candidates.take maxAiTries)

/-- Spec-side acceptance test for one candidate: validation passes, the
locator builds, counts exactly 1 and is visible, nothing throwing. -/
def passesProbe (probe : PageProbe) (c : PlanCand) : Bool :=
  !(validateStrategy c.strategy).isSome &&
    match buildLocator c.strategy with
    | .error _ => false
    | .ok loc =>
        match probe.countOf loc with
        | .error _ => false
        | .ok count =>
            if count != 1 then false
            else
              match probe.visibleOf loc with
              | .error _ => false
              | .ok visible => visible

/-! ## healAction (src/healwright.ts)

The declared target is either a real driver locator or a raw selector
string; the empty string is the sentinel for "no declared locator". The
effectful steps (perform the action, hit the cache, ask the AI) are
abstracted into an environment of outcomes, and the run is modelled as
its thrown-or-ok result plus the trace of performs and AI calls. -/

inductive Target (L : Type) where
  | loc : L → Target L
  | str : String → Target L

/-- `isValidLocator` (src/utils.ts): any non-string, or a non-empty string. -/
def isValidLocator {L : Type} : Target L → Bool
  | .loc _ => true
  | .str s => !(s == "")

inductive HealEvent where
  | performedDeclared
  | performedCached
  | askedAI
  | performedHealed
deriving DecidableEq, Repr

/-- What a `healAction` run can throw. `original` is the declared action's
own error rethrown; `jsNull` is JS `throw null` (the heal-phase
`originalErr` constant, which is `null` outside AI-only mode). -/
inductive Thrown where
  | original
  | jsNull
  | msg : String → Thrown
  | api : String → Thrown
  | planNullType
  | healPerform
deriving DecidableEq, Repr

structure HealEnv where
  declaredOk : Bool
  cached : Option StrategyT
  cachedOk : Bool
  aiPlan : Except String (Option HealPlanT)
  probe : PageProbe
  healedOk : Bool

/-- What `throw originalErr ?? new Error(...)` throws when no candidate is
valid: in AI-only mode `originalErr` is the "AI detect mode" error, else
it is null and the fresh "No valid candidate" error is thrown. -/
def noCandThrow (aiOnlyMode : Bool) (contextName : String) : Thrown :=
  if aiOnlyMode then .msg ("AI detect mode for: " ++ contextName)
  else .msg ("No valid candidate for: " ++ contextName)

/-- The heal-phase catch: `throw aiOnlyMode ? healErr : originalErr`, and
`originalErr` is null outside AI-only mode. -/
def healRethrow (aiOnlyMode : Bool) (healErr : Thrown) : Thrown :=
  if aiOnlyMode then healErr else .jsNull

/-- The `try { askAI; pickValid; ...; perform } catch` block of `healAction`. -/
def healAIPhase (env : HealEnv) (aiOnlyMode : Bool) (maxAiTries : Nat)
    (contextName : String) : Except Thrown Unit × List HealEvent :=
  match env.aiPlan with
  | .error m => (.error (healRethrow aiOnlyMode (.api m)), [.askedAI])
  | .ok none => (.error (healRethrow aiOnlyMode .planNullType), [.askedAI])
  | .ok (some plan) =>
      match pickValid env.probe maxAiTries plan with
      | none =>
          (.error (healRethrow aiOnlyMode (noCandThrow aiOnlyMode contextName)),
           [.askedAI])
      | some choice =>
          match buildLocator choice.strategy with
          | .error _ => (.error (healRethrow aiOnlyMode .healPerform), [.askedAI])
          | .ok _ =>
              if env.healedOk then (.ok (), [.askedAI, .performedHealed])
              else (.error (healRethrow aiOnlyMode .healPerform), [.askedAI])

/-- The cached-strategy attempt: a hit that performs cleanly returns,
any failure falls through to the AI phase. -/
def healCachePhase (env : HealEnv) (aiOnlyMode : Bool) (maxAiTries : Nat)
    (contextName : String) : Except Thrown Unit × List HealEvent :=
  match env.cached with
  | some _ =>
      if env.cachedOk then (.ok (), [.performedCached])
      else healAIPhase env aiOnlyMode maxAiTries contextName
  | none => healAIPhase env aiOnlyMode maxAiTries contextName

/-- `healAction` (src/healwright.ts): try the declared locator unless in
AI-only mode; rethrow its error when healing is disabled; in AI-only mode
with healing disabled throw the "AI detection requires healing to be
enabled" error; otherwise run the cache then AI phases. -/
def healAction {L : Type} (env : HealEnv) (enabled : Bool) (maxAiTries : Nat)
    (target : Target L) (contextName : String) :
    Except Thrown Unit × List HealEvent :=
  let aiOnlyMode := !isValidLocator target
  if aiOnlyMode = false then
    if env.declaredOk then (.ok (), [.performedDeclared])
    else if enabled = false then (.error .original, [])
    else healCachePhase env aiOnlyMode maxAiTries contextName
  else
    if enabled = false then
      (.error (.msg "AI detection requires healing to be enabled"), [])
    else healCachePhase env aiOnlyMode maxAiTries contextName

/-- A concrete environment for evaluating `healAction` runs. -/
def envC1 : HealEnv :=
  { declaredOk := false, cached := none, cachedOk := false,
    aiPlan := .ok none,
    probe := { countOf := fun _ => .error "", visibleOf := fun _ => .error "" },
    healedOk := false }

/-! ## Provider heal-plan generation (src/providers/openai.ts, local.ts)

Both backends share one try/catch shape: the transport call may throw,
the response may carry no content (JS-falsy, so `null` or the empty
string), and otherwise the content goes through `cleanJson` into a parse
step that is caught on failure. The parse step (JSON.parse plus schema
validation, plus `normalizeResponse` for the local backend) is abstracted
as a function. -/

structure TokenUsage where
  inputTokens : Nat
  outputTokens : Nat
  totalTokens : Nat
deriving DecidableEq, Repr

structure HealPlanResult where
  plan : Option HealPlanT
  tokenUsage : Option TokenUsage

inductive Transport where
  | thrown : String → Transport
  | responded : Option String → Option TokenUsage → Transport

/-- `OpenAIProvider.generateHealPlan`: transport errors rethrow; no
content, or a parse failure on `cleanJson content`, returns a null plan
with the token usage. -/
def generateHealPlanOpenAI (parse : String → Except String HealPlanT)
    (t : Transport) : Except String HealPlanResult :=
  match t with
  | .thrown e => .error e
  | .responded content usage =>
      if jsBlank content then .ok ⟨none, usage⟩
      else
        match parse (cleanJson (content.getD "")) with
        | .error _ => .ok ⟨none, usage⟩
        | .ok plan => .ok ⟨some plan, usage⟩

/-- `LocalProvider.generateHealPlan`: the same routing around its own
parse step. -/
def generateHealPlanLocal (parse : String → Except String HealPlanT)
    (t : Transport) : Except String HealPlanResult :=
  match t with
  | .thrown e => .error e
  | .responded content usage =>
      if jsBlank content then .ok ⟨none, usage⟩
      else
        match parse (cleanJson (content.getD "")) with
        | .error _ => .ok ⟨none, usage⟩
        | .ok plan => .ok ⟨some plan, usage⟩

/-! # Theorems -/

/-! ## C4: validateStrategy -/

/-- C4: for every strategy of each of the 8 kinds, `validateStrategy`
returns a non-null (human-readable missing-field) message if and only if
the one required field for that kind (value for testid, role for role,
text for label/placeholder/text/altText/title, selector for css) is
empty or absent. -/
theorem validateStrategy_missing_required_iff (s : StrategyT) :
    (validateStrategy s).isSome = jsBlank (requiredField s) := by
  cases s with
  | mk t v sel r n tx e =>
      cases t <;> simp only [validateStrategy, requiredField] <;> split <;> simp_all

/-! ## C5: cacheKey ignores query string and fragment -/

theorem takeWhile_bne_append {c : Char} {l1 l2 : List Char} (h : c ∉ l1) :
    (l1 ++ c :: l2).takeWhile (· != c) = l1 := by
  induction l1 with
  | nil => simp [List.takeWhile_cons]
  | cons a t ih =>
      have ha : a ≠ c := by rintro rfl; exact h (by simp)
      simp only [List.cons_append, List.takeWhile_cons]
      simp only [bne_iff_ne, ne_eq, ha, not_false_eq_true, if_true, List.cons.injEq, true_and]
      exact ih (fun hm => h (by simp [hm]))

theorem takeWhile_bne_all {c : Char} {l : List Char} (h : c ∉ l) :
    l.takeWhile (· != c) = l := by
  refine List.takeWhile_eq_self_iff.2 ?_
  intro a ha
  simp only [bne_iff_ne, ne_eq]
  rintro rfl
  exact h ha

theorem urlOriginPathname_congr {u1 u2 : String}
    (h : (u1.toList.takeWhile (· != '#')).takeWhile (· != '?')
       = (u2.toList.takeWhile (· != '#')).takeWhile (· != '?')) :
    urlOriginPathname u1 = urlOriginPathname u2 := by
  unfold urlOriginPathname
  rw [h]

/-- C5: the cache key ignores the URL's query string and fragment: for a
base URL containing neither `?` nor `#`, appending a query string and/or
a fragment leaves `cacheKey` unchanged, for every action kind and
description. -/
theorem cacheKey_ignores_query_fragment (base q f action ctx : String)
    (h1 : '?' ∉ base.toList) (h2 : '#' ∉ base.toList) (hq : '#' ∉ q.toList) :
    cacheKey (base ++ "?" ++ q ++ "#" ++ f) action ctx = cacheKey base action ctx
      ∧ cacheKey (base ++ "?" ++ q) action ctx = cacheKey base action ctx
      ∧ cacheKey (base ++ "#" ++ f) action ctx = cacheKey base action ctx := by
  have hbase : (base.toList.takeWhile (· != '#')).takeWhile (· != '?') = base.toList := by
    rw [takeWhile_bne_all h2, takeWhile_bne_all h1]
  have hn1 : '#' ∉ base.toList ++ '?' :: q.toList := by
    intro hm
    rcases List.mem_append.1 hm with hb | hc
    · exact h2 hb
    · rcases List.mem_cons.1 hc with hh | hh
      · exact absurd hh (by decide)
      · exact hq hh
  refine ⟨?_, ?_, ?_⟩ <;> unfold cacheKey <;>
    refine congrArg (fun z => action ++ "::" ++ z ++ "::" ++ ctx) ?_ <;>
    apply urlOriginPathname_congr <;> rw [hbase]
  · have e1 : (base ++ "?" ++ q ++ "#" ++ f).toList
        = (base.toList ++ '?' :: q.toList) ++ '#' :: f.toList := by
      show base.toList ++ '?' :: [] ++ q.toList ++ '#' :: [] ++ f.toList = _
      simp
    rw [e1, takeWhile_bne_append hn1, takeWhile_bne_append h1]
  · have e1 : (base ++ "?" ++ q).toList = base.toList ++ '?' :: q.toList := by
      show base.toList ++ '?' :: [] ++ q.toList = _
      simp
    have hn2 : '#' ∉ base.toList ++ '?' :: q.toList := hn1
    rw [e1, takeWhile_bne_all hn2, takeWhile_bne_append h1]
  · have e1 : (base ++ "#" ++ f).toList = base.toList ++ '#' :: f.toList := by
      show base.toList ++ '#' :: [] ++ f.toList = _
      simp
    rw [e1, takeWhile_bne_append h2, takeWhile_bne_all h1]

/-- Witness for C5 at the spec example:
`cacheKey("click","https://x/y?q=1#h","d") = cacheKey("click","https://x/y","d")`. -/
theorem cacheKey_ignores_query_fragment_witness :
    cacheKey "https://x/y?q=1#h" "click" "d" = cacheKey "https://x/y" "click" "d" := by
  have h := (cacheKey_ignores_query_fragment "https://x/y" "q=1" "h" "click" "d"
    (by decide) (by decide) (by decide)).1
  have e : ("https://x/y" ++ "?" ++ "q=1" ++ "#" ++ "h" : String) = "https://x/y?q=1#h" := by
    decide
  rw [e] at h
  exact h

/-! ## C8: isRetryableError classification -/

theorem isRetryableError_eq_or (err : Option JsError) :
    isRetryableError err =
      ((match effectiveStatus err with
        | some s => s == 429 || decide (s ≥ 500)
        | none => false)
       || (err.bind (fun e => e.code) == some "ECONNRESET"
           || err.bind (fun e => e.code) == some "ETIMEDOUT"
           || err.bind (fun e => e.code) == some "ENOTFOUND")
       || (jsIncludes (String.toLower ((err.bind (fun e => e.message)).getD ""))
             "rate limit"
           || jsIncludes (String.toLower ((err.bind (fun e => e.message)).getD ""))
             "timeout"
           || jsIncludes (String.toLower ((err.bind (fun e => e.message)).getD ""))
             "overloaded")) := by
  unfold isRetryableError
  dsimp only
  split_ifs with h1 h2 <;> simp_all

/-- C8: an error is classified retryable if and only if its effective
HTTP status (`status ?? statusCode ?? response.status`) is 429 or at
least 500, or its error code is a transient network code (ECONNRESET,
ETIMEDOUT, ENOTFOUND), or its message contains "rate limit", "timeout"
or "overloaded" case-insensitively; all other errors (e.g. status 401 or
400, or null errors) are non-retryable. -/
theorem isRetryableError_iff (err : Option JsError) :
    isRetryableError err = true ↔
      (effectiveStatus err = some 429
        ∨ (∃ s, effectiveStatus err = some s ∧ 500 ≤ s)
        ∨ err.bind (fun e => e.code) = some "ECONNRESET"
        ∨ err.bind (fun e => e.code) = some "ETIMEDOUT"
        ∨ err.bind (fun e => e.code) = some "ENOTFOUND"
        ∨ jsIncludes (String.toLower ((err.bind (fun e => e.message)).getD ""))
            "rate limit" = true
        ∨ jsIncludes (String.toLower ((err.bind (fun e => e.message)).getD ""))
            "timeout" = true
        ∨ jsIncludes (String.toLower ((err.bind (fun e => e.message)).getD ""))
            "overloaded" = true) := by
  rw [isRetryableError_eq_or]
  rcases hst : effectiveStatus err with _ | s <;> simp [hst, or_assoc]

/-! ## C3: withRetry call and retry behavior -/

theorem withRetryAux_always_fail {T : Type} (fn : Nat → Except (Option JsError) T)
    (es : Nat → Option JsError) (base maxRetries : Nat)
    (hf : ∀ i, fn i = .error (es i)) (hr : ∀ i, isRetryableError (es i) = true) :
    ∀ n a, maxRetries - a = n → a ≤ maxRetries →
      withRetryAux fn base maxRetries a =
        (.error (es maxRetries), maxRetries + 1 - a,
          (List.range' a (maxRetries - a)).map (fun k => base * 2 ^ k)) := by
  intro n
  induction n with
  | zero =>
      intro a h0 ha
      have hma : maxRetries = a := by omega
      rw [withRetryAux]
      simp only [hf a]
      rw [dif_neg (fun hc => absurd hc.1 (by omega))]
      rw [hma]
      simp [Nat.sub_self, Nat.add_sub_cancel_left, List.range']
  | succ n ih =>
      intro a h0 ha
      have hlt : a < maxRetries := by omega
      rw [withRetryAux]
      simp only [hf a]
      rw [dif_pos ⟨hlt, hr a⟩]
      rw [ih (a + 1) (by omega) (by omega)]
      dsimp only
      have hrange : List.range' a (maxRetries - a)
          = a :: List.range' (a + 1) (maxRetries - (a + 1)) := by
        have h2 : maxRetries - a = (maxRetries - (a + 1)) + 1 := by omega
        rw [h2, List.range'_succ]
      rw [hrange]
      simp only [List.map_cons]
      have h4 : maxRetries + 1 - (a + 1) + 1 = maxRetries + 1 - a := by omega
      rw [h4]

theorem withRetryAux_calls_pos {T : Type} (fn : Nat → Except (Option JsError) T)
    (base maxRetries a : Nat) :
    1 ≤ (withRetryAux fn base maxRetries a).2.1 := by
  rw [withRetryAux]
  rcases hfa : fn a with e | v <;> simp only [hfa]
  · by_cases hc : a < maxRetries ∧ isRetryableError e = true
    · rw [dif_pos hc]; simp
    · rw [dif_neg hc]
  · simp

theorem withRetryAux_calls_delays {T : Type} (fn : Nat → Except (Option JsError) T)
    (base maxRetries : Nat) :
    ∀ n a, maxRetries - a = n → a ≤ maxRetries →
      (withRetryAux fn base maxRetries a).2.1 ≤ maxRetries + 1 - a ∧
      (withRetryAux fn base maxRetries a).2.2
        = (List.range' a ((withRetryAux fn base maxRetries a).2.1 - 1)).map
            (fun k => base * 2 ^ k) := by
  intro n
  induction n with
  | zero =>
      intro a h0 ha
      rw [withRetryAux]
      rcases hfa : fn a with e | v <;> simp only [hfa]
      · rw [dif_neg (fun hc => absurd hc.1 (by omega))]
        refine ⟨by dsimp only; omega, ?_⟩
        simp [List.range']
      · refine ⟨by omega, ?_⟩
        simp [List.range']
  | succ n ih =>
      intro a h0 ha
      rw [withRetryAux]
      rcases hfa : fn a with e | v <;> simp only [hfa]
      · by_cases hcond : a < maxRetries ∧ isRetryableError e = true
        · rw [dif_pos hcond]
          obtain ⟨ihc, ihd⟩ := ih (a + 1) (by omega) (by omega)
          have hpos := withRetryAux_calls_pos fn base maxRetries (a + 1)
          refine ⟨by dsimp only; omega, ?_⟩
          dsimp only
          have h3 : (withRetryAux fn base maxRetries (a + 1)).2.1 + 1 - 1
              = ((withRetryAux fn base maxRetries (a + 1)).2.1 - 1) + 1 := by omega
          rw [h3, List.range'_succ, List.map_cons, ← ihd]
        · rw [dif_neg hcond]
          refine ⟨by dsimp only; omega, ?_⟩
          simp [List.range']
      · refine ⟨by omega, ?_⟩
        simp [List.range']

/-- C3: `withRetry(fn, maxRetries, baseDelay)` on a function that always
fails with a retryable error calls `fn` exactly `maxRetries + 1` times
and rethrows the last error; on a non-retryable first error it calls
`fn` exactly once and propagates it immediately with no delay; in all
cases it makes at most `maxRetries + 1` calls, and the delay slept
before the (k+1)-th retry is `baseDelay * 2 ^ k`. -/
theorem withRetry_spec {T : Type} (fn : Nat → Except (Option JsError) T)
    (es : Nat → Option JsError) (maxRetries base : Nat) :
    ((∀ i, fn i = .error (es i)) → (∀ i, isRetryableError (es i) = true) →
        withRetry fn maxRetries base
          = (.error (es maxRetries), maxRetries + 1,
             (List.range maxRetries).map (fun k => base * 2 ^ k)))
      ∧ (∀ e, fn 0 = .error e → isRetryableError e = false →
          withRetry fn maxRetries base = (.error e, 1, []))
      ∧ (withRetry fn maxRetries base).2.1 ≤ maxRetries + 1
      ∧ (withRetry fn maxRetries base).2.2
          = (List.range ((withRetry fn maxRetries base).2.1 - 1)).map
              (fun k => base * 2 ^ k) := by
  refine ⟨?_, ?_, ?_, ?_⟩
  · intro hf hr
    have h := withRetryAux_always_fail fn es base maxRetries hf hr maxRetries 0
      (by omega) (by omega)
    rw [withRetry, h]
    simp [List.range_eq_range']
  · intro e hf hr
    rw [withRetry, withRetryAux]
    simp only [hf]
    rw [dif_neg (fun hc => by simp [hr] at hc)]
  · have h := (withRetryAux_calls_delays fn base maxRetries maxRetries 0
      (by omega) (by omega)).1
    rw [withRetry]
    omega
  · have h := (withRetryAux_calls_delays fn base maxRetries maxRetries 0
      (by omega) (by omega)).2
    rw [withRetry, h]
    simp [List.range_eq_range']

/-! ## C7: cleanJson -/

theorem stripTrailingCommasF_noop (n : Nat) (l : List Char)
    (h : hasTrailingCommaPat l = false) : stripTrailingCommasF n l = l := by
  induction n, l using stripTrailingCommasF.induct with
  | case5 fuel rest hws ih =>
      simp only [stripTrailingCommasF, hasTrailingCommaPat, hws] at *
      simp [ih h]
  | _ => simp_all [stripTrailingCommasF, hasTrailingCommaPat]

theorem stripFenceOpenF_noop (n : Nat) (st : Bool) (l : List Char) (h : '`' ∉ l) :
    stripFenceOpenF n st l = l := by
  induction n, st, l using stripFenceOpenF.induct <;> simp_all [stripFenceOpenF]

theorem stripFenceCloseF_noop (n : Nat) (l : List Char) (h : '`' ∉ l) :
    stripFenceCloseF n l = l := by
  induction n, l using stripFenceCloseF.induct <;> simp_all [stripFenceCloseF]

theorem stripBlockCommentsF_noop (n : Nat) (l : List Char)
    (h : listHasSub ['/', '*'] l = false) : stripBlockCommentsF n l = l := by
  induction n, l using stripBlockCommentsF.induct <;>
    simp_all [stripBlockCommentsF, listHasSub, List.isPrefixOf]

theorem stripLineComments_noop (l : List Char)
    (h : ∀ line ∈ l.splitOn '\n', (['/', '/'].isPrefixOf (line.dropWhile jsIsSpace)) = false) :
    stripLineComments l = l := by
  have hline : ∀ line ∈ l.splitOn '\n', stripLineCommentLine line = line := by
    intro line hl
    unfold stripLineCommentLine
    simp [h line hl]
  have hmap : ∀ (L : List (List Char)), (∀ x ∈ L, stripLineCommentLine x = x) →
      L.map stripLineCommentLine = L := by
    intro L hL
    induction L with
    | nil => rfl
    | cons x xs ih =>
        simp only [List.map_cons, hL x (by simp)]
        rw [ih (fun y hy => hL y (by simp [hy]))]
  unfold stripLineComments
  rw [hmap _ hline, List.intercalate_splitOn]

theorem stripFenceOpenF_cons (n : Nat) (st : Bool) (c : Char) (l : List Char) (hc : c ≠ '`') :
    stripFenceOpenF (n + 1) st (c :: l) = c :: stripFenceOpenF n (c == '\n') l := by
  rw [stripFenceOpenF.eq_def]
  split <;> simp_all

theorem lineStartAfter_cons (st : Bool) (c : Char) (m : List Char) :
    lineStartAfter st (c :: m) = lineStartAfter (c == '\n') m := by
  cases m with
  | nil => simp [lineStartAfter]
  | cons d t =>
      unfold lineStartAfter
      rw [List.getLast?_cons_cons]
      cases hgl : (d :: t).getLast? with
      | none => exact absurd hgl (by simp)
      | some x => simp

theorem stripFenceOpenF_append (m : List Char) (hm : '`' ∉ m) :
    ∀ (k : Nat) (st : Bool) (suffix : List Char),
      stripFenceOpenF (m.length + k) st (m ++ suffix)
        = m ++ stripFenceOpenF k (lineStartAfter st m) suffix := by
  induction m with
  | nil => intro k st suffix; simp [lineStartAfter]
  | cons c m' ih =>
      intro k st suffix
      have hc : c ≠ '`' := fun hh => hm (by simp [hh])
      have hm' : '`' ∉ m' := fun hh => hm (by simp [hh])
      have hl : (c :: m').length + k = (m'.length + k) + 1 := by simp; omega
      rw [hl, List.cons_append, stripFenceOpenF_cons _ _ _ _ hc, ih hm',
        lineStartAfter_cons]
      simp

theorem jsTrim_append_newline (l : List Char) (c d : Char)
    (hh : l.head? = some c) (hcs : jsIsSpace c = false)
    (hl : l.getLast? = some d) (hds : jsIsSpace d = false) :
    jsTrim (l ++ ['\n']) = l := by
  unfold jsTrim
  cases l with
  | nil => simp at hh
  | cons x xs =>
      have hx : jsIsSpace x = false := by
        have : x = c := by simpa using hh
        rw [this]
        exact hcs
      rw [List.cons_append, List.dropWhile_cons]
      simp only [hx, Bool.false_eq_true, if_false]
      rw [show (x :: (xs ++ ['\n'])).reverse = '\n' :: (x :: xs).reverse by simp]
      rw [List.dropWhile_cons]
      have hnl : jsIsSpace '\n' = true := by decide
      simp only [hnl, if_true]
      have hrev : (x :: xs).reverse.head? = some d := by
        rw [List.head?_reverse]
        exact hl
      cases hrv : (x :: xs).reverse with
      | nil => simp at hrv
      | cons y ys =>
          have hy : jsIsSpace y = false := by
            have : y = d := by rw [hrv] at hrev; simpa using hrev
            rw [this]
            exact hds
          rw [List.dropWhile_cons]
          simp only [hy, Bool.false_eq_true, if_false]
          rw [← hrv, List.reverse_reverse]

theorem stripFenceOpen_fenceWrap (t : List Char) (hb : '`' ∉ ('{' :: t)) :
    stripFenceOpen ('`' :: '`' :: '`' :: 'j' :: 's' :: 'o' :: 'n' :: '\n' :: '{'
        :: (t ++ ['\n', '`', '`', '`']))
      = ('{' :: t) ++ ['\n'] := by
  unfold stripFenceOpen
  have hlen : ('`' :: '`' :: '`' :: 'j' :: 's' :: 'o' :: 'n' :: '\n' :: '{'
      :: (t ++ ['\n', '`', '`', '`'])).length = t.length + 13 := by
    simp
  rw [hlen]
  have step1 : stripFenceOpenF (t.length + 13 + 1) true
      ('`' :: '`' :: '`' :: 'j' :: 's' :: 'o' :: 'n' :: '\n' :: '{'
        :: (t ++ ['\n', '`', '`', '`']))
      = stripFenceOpenF (t.length + 13) true ('{' :: (t ++ ['\n', '`', '`', '`'])) := by
    rw [stripFenceOpenF]
    simp +decide [List.isPrefixOf, List.takeWhile_cons, List.dropWhile_cons]
  rw [step1]
  have hre : '{' :: (t ++ ['\n', '`', '`', '`'])
      = (('{' :: t) ++ ['\n']) ++ ['`', '`', '`'] := by simp
  have hfuel : t.length + 13 = (('{' :: t) ++ ['\n']).length + 11 := by
    simp
  have hm : '`' ∉ ('{' :: t) ++ ['\n'] := by
    intro hmem
    rcases List.mem_append.1 hmem with h1 | h1
    · exact hb h1
    · simp at h1
  rw [hre, hfuel, stripFenceOpenF_append _ hm]
  have hls : lineStartAfter true (('{' :: t) ++ ['\n']) = true := by
    unfold lineStartAfter
    rw [List.getLast?_concat]
    rfl
  rw [hls]
  rw [show stripFenceOpenF 11 true ['`', '`', '`'] = ([] : List Char) from rfl,
    List.append_nil]

/-- C7 (amended): `cleanJson` is a no-op on already-valid JSON only when
the input contains no backtick, is trim-stable, and has no line-comment
prefix, no block-comment opener and no trailing-comma pattern anywhere —
in particular not inside its string literals; and it recovers valid
parseable JSON from an object body wrapped in a Markdown code fence whose
trailing commas are stripped. -/
theorem cleanJson_amended :
    (∀ raw : String,
        '`' ∉ raw.toList →
        jsTrim raw.toList = raw.toList →
        (∀ line ∈ raw.toList.splitOn '\n',
          (['/', '/'].isPrefixOf (line.dropWhile jsIsSpace)) = false) →
        listHasSub ['/', '*'] raw.toList = false →
        hasTrailingCommaPat raw.toList = false →
        jsonValid raw.toList = true →
        cleanJson raw = raw)
    ∧ (∀ body : String,
        '`' ∉ body.toList →
        body.toList.head? = some '{' →
        body.toList.getLast? = some '}' →
        (∀ line ∈ body.toList.splitOn '\n',
          (['/', '/'].isPrefixOf (line.dropWhile jsIsSpace)) = false) →
        listHasSub ['/', '*'] body.toList = false →
        jsonValid (stripTrailingCommas body.toList) = true →
        cleanJson (fenceWrap body) = String.mk (stripTrailingCommas body.toList)
          ∧ jsonValid ((cleanJson (fenceWrap body)).toList) = true) := by
  constructor
  · intro raw hb ht hlc hbc htc hv
    unfold cleanJson stripFenceOpen stripFenceClose stripBlockComments stripTrailingCommas
    rw [stripFenceOpenF_noop _ _ _ hb, stripFenceCloseF_noop _ _ hb, ht,
      stripLineComments_noop _ hlc, stripBlockCommentsF_noop _ _ hbc,
      stripTrailingCommasF_noop _ _ htc]
    unfold cleanJsonFinish
    rw [hv]
    rfl
  · intro body hb hh hlast hlc hbc hv
    obtain ⟨t, hbt⟩ : ∃ t, body.toList = '{' :: t := by
      cases hx : body.toList with
      | nil => rw [hx] at hh; simp at hh
      | cons a tl =>
          rw [hx] at hh
          simp only [List.head?_cons, Option.some.injEq] at hh
          exact ⟨tl, by rw [hh]⟩
    have hbmem : '`' ∉ ('{' :: t) := by rw [← hbt]; exact hb
    have hwrap : (fenceWrap body).toList
        = '`' :: '`' :: '`' :: 'j' :: 's' :: 'o' :: 'n' :: '\n' :: '{'
          :: (t ++ ['\n', '`', '`', '`']) := by
      unfold fenceWrap
      rw [show (("```json\n" ++ body ++ "\n```") : String).toList
          = "```json\n".toList ++ body.toList ++ "\n```".toList from rfl, hbt]
      simp
    have hm2 : '`' ∉ ('{' :: t) ++ ['\n'] := by
      intro hmem
      rcases List.mem_append.1 hmem with h1 | h1
      · exact hbmem h1
      · simp at h1
    have hgl : ('{' :: t).getLast? = some '}' := by rw [← hbt]; exact hlast
    have heq : cleanJson (fenceWrap body) = String.mk (stripTrailingCommas body.toList) := by
      unfold cleanJson stripFenceClose stripBlockComments
      rw [hwrap, stripFenceOpen_fenceWrap t hbmem, stripFenceCloseF_noop _ _ hm2,
        jsTrim_append_newline ('{' :: t) '{' '}' (by simp) (by decide) hgl (by decide)]
      rw [hbt] at hlc hbc
      rw [stripLineComments_noop _ hlc, stripBlockCommentsF_noop _ _ hbc]
      rw [hbt] at hv
      unfold cleanJsonFinish
      rw [hv, hbt]
      simp
    refine ⟨heq, ?_⟩
    rw [heq]
    exact hv

/-! ## C10: testid CSS union selector -/

theorem parseAttrValue_cons (c : Char) (l : List Char) (hc1 : c ≠ '"') (hc2 : c ≠ '\\') :
    parseAttrValue (c :: l)
      = match parseAttrValue l with
        | some (v, r) => some (c :: v, r)
        | none => none := by
  rw [parseAttrValue.eq_def]
  split <;> simp_all

theorem parseAttrValue_escape (v r : List Char) (hb : '\\' ∉ v) :
    parseAttrValue (escapeQuotesL v ++ '"' :: r) = some (v, r) := by
  induction v with
  | nil => rfl
  | cons c v' ih =>
      by_cases hc : c = '"'
      · subst hc
        show parseAttrValue ('\\' :: '"' :: (escapeQuotesL v' ++ '"' :: r)) = _
        rw [show parseAttrValue ('\\' :: '"' :: (escapeQuotesL v' ++ '"' :: r))
            = match parseAttrValue (escapeQuotesL v' ++ '"' :: r) with
              | some (v, r) => some ('"' :: v, r)
              | none => none from rfl]
        rw [ih (fun hm => hb (by simp [hm]))]
  -- c ≠ '"'
      · have hc2 : c ≠ '\\' := fun hh => hb (by simp [hh])
        have hesc : escapeQuotesL (c :: v') = c :: escapeQuotesL v' := by
          simp [escapeQuotesL, hc]
        rw [hesc, List.cons_append, parseAttrValue_cons c _ hc hc2,
          ih (fun hm => hb (by simp [hm]))]

theorem parseAttrSelectors_comp (N v : String) (REST : List Char) (hb : '\\' ∉ v.toList)
    (hpn : parseAttrName (N.toList ++ '=' :: '"' ::
        (escapeQuotesL v.toList ++ '"' :: ']' :: ',' :: REST))
      = some (N.toList, '"' :: (escapeQuotesL v.toList ++ '"' :: ']' :: ',' :: REST))) :
    parseAttrSelectors ('[' :: (N.toList ++ '=' :: '"' ::
        (escapeQuotesL v.toList ++ '"' :: ']' :: ',' :: REST)))
      = match parseAttrSelectors REST with
        | some more => some ((N, v) :: more)
        | none => none := by
  rw [parseAttrSelectors.eq_def]
  split
  · rename_i rest heq
    injection heq with heqh heqt
    subst heqt
    split
    · rename_i h2
      rw [hpn] at h2
      cases h2
    · rename_i name r1 h2
      rw [hpn] at h2
      injection h2 with h3
      injection h3 with hname hr1
      subst hname
      subst hr1
      simp only []
      split
      · rename_i h4
        rw [parseAttrValue_escape v.toList _ hb] at h4
        cases h4
      · rename_i v2 r3 h4
        rw [parseAttrValue_escape v.toList _ hb] at h4
        injection h4 with h5
        injection h5 with hv2 hr3
        subst hv2
        subst hr3
        rfl
  · rename_i hno
    exact absurd rfl (hno _)

theorem parseAttrSelectors_lastComp (N v : String) (hb : '\\' ∉ v.toList)
    (hpn : parseAttrName (N.toList ++ '=' :: '"' :: (escapeQuotesL v.toList ++ '"' :: ']' :: []))
      = some (N.toList, '"' :: (escapeQuotesL v.toList ++ '"' :: ']' :: []))) :
    parseAttrSelectors ('[' :: (N.toList ++ '=' :: '"' ::
        (escapeQuotesL v.toList ++ '"' :: ']' :: [])))
      = some [(N, v)] := by
  rw [parseAttrSelectors.eq_def]
  split
  · rename_i rest heq
    injection heq with heqh heqt
    subst heqt
    split
    · rename_i h2
      rw [hpn] at h2
      cases h2
    · rename_i name r1 h2
      rw [hpn] at h2
      injection h2 with h3
      injection h3 with hname hr1
      subst hname
      subst hr1
      simp only []
      split
      · rename_i h4
        rw [parseAttrValue_escape v.toList _ hb] at h4
        cases h4
      · rename_i v2 r3 h4
        rw [parseAttrValue_escape v.toList _ hb] at h4
        injection h4 with h5
        injection h5 with hv2 hr3
        subst hv2
        subst hr3
        rfl
  · rename_i hno
    exact absurd rfl (hno _)

theorem parseAttrSelectors_testid (v : String) (hb : '\\' ∉ v.toList) :
    parseAttrSelectors (testidSelector v).toList
      = some [("data-testid", v), ("data-test", v), ("data-test-id", v),
              ("data-qa", v), ("data-cy", v)] := by
  have happ : ∀ s t : String, (s ++ t).toList = s.toList ++ t.toList := fun _ _ => rfl
  have hesc : (escapeQuotes v).toList = escapeQuotesL v.toList := rfl
  have hA : "[data-testid=\"".toList = '[' :: ("data-testid".toList ++ ['=', '"']) := rfl
  have hB : "\"],[data-test=\"".toList
      = '"' :: ']' :: ',' :: '[' :: ("data-test".toList ++ ['=', '"']) := rfl
  have hC : "\"],[data-test-id=\"".toList
      = '"' :: ']' :: ',' :: '[' :: ("data-test-id".toList ++ ['=', '"']) := rfl
  have hD : "\"],[data-qa=\"".toList
      = '"' :: ']' :: ',' :: '[' :: ("data-qa".toList ++ ['=', '"']) := rfl
  have hE : "\"],[data-cy=\"".toList
      = '"' :: ']' :: ',' :: '[' :: ("data-cy".toList ++ ['=', '"']) := rfl
  have hF : "\"]".toList = ['"', ']'] := rfl
  have hexp : (testidSelector v).toList
      = '[' :: ("data-testid".toList ++ '=' :: '"' :: (escapeQuotesL v.toList ++ '"' :: ']' :: ',' ::
        ('[' :: ("data-test".toList ++ '=' :: '"' :: (escapeQuotesL v.toList ++ '"' :: ']' :: ',' ::
        ('[' :: ("data-test-id".toList ++ '=' :: '"' :: (escapeQuotesL v.toList ++ '"' :: ']' :: ',' ::
        ('[' :: ("data-qa".toList ++ '=' :: '"' :: (escapeQuotesL v.toList ++ '"' :: ']' :: ',' ::
        ('[' :: ("data-cy".toList ++ '=' :: '"' :: (escapeQuotesL v.toList ++ '"' :: ']' :: [])))))))))))))) := by
    unfold testidSelector
    simp only [happ, hesc, hA, hB, hC, hD, hE, hF, List.append_assoc, List.cons_append,
      List.nil_append]
  rw [hexp, parseAttrSelectors_comp "data-testid" v _ hb rfl,
    parseAttrSelectors_comp "data-test" v _ hb rfl,
    parseAttrSelectors_comp "data-test-id" v _ hb rfl,
    parseAttrSelectors_comp "data-qa" v _ hb rfl,
    parseAttrSelectors_lastComp "data-cy" v hb rfl]

/-! ## C6: rankCandidates -/

theorem scoredList_map_idx (candidates : List Candidate) (contextName : String) :
    (scoredList candidates contextName).map (fun s => s.idx)
      = List.range candidates.length := by
  unfold scoredList
  rw [List.mapIdx_eq_enum_map, List.map_map]
  have h : ((fun s : Scored => s.idx) ∘ Function.uncurry fun i c =>
      (⟨c, scoreOf contextName c, i⟩ : Scored)) = Prod.fst := rfl
  rw [h, List.enum_map_fst]

theorem scoredList_map_cand (candidates : List Candidate) (contextName : String) :
    (scoredList candidates contextName).map (fun s => s.cand) = candidates := by
  unfold scoredList
  rw [List.mapIdx_eq_enum_map, List.map_map]
  have h : ((fun s : Scored => s.cand) ∘ Function.uncurry fun i c =>
      (⟨c, scoreOf contextName c, i⟩ : Scored)) = Prod.snd := rfl
  rw [h]
  exact List.enum_map_snd candidates

theorem rankScored_length (candidates : List Candidate) (contextName : String) :
    (rankScored candidates contextName).length = candidates.length := by
  unfold rankScored
  rw [(List.perm_insertionSort rankOrder (scoredList candidates contextName)).length_eq]
  have := congrArg List.length (scoredList_map_cand candidates contextName)
  simpa using this

theorem rankScored_sorted_strict (candidates : List Candidate) (contextName : String) :
    List.Pairwise (fun a b : Scored => b.score ≤ a.score ∧ (a.score = b.score → a.idx < b.idx))
      (rankScored candidates contextName) := by
  have hsorted : List.Pairwise rankOrder (rankScored candidates contextName) :=
    List.sorted_insertionSort rankOrder (scoredList candidates contextName)
  have hperm : (rankScored candidates contextName).Perm (scoredList candidates contextName) :=
    List.perm_insertionSort rankOrder (scoredList candidates contextName)
  have hnodupr : ((scoredList candidates contextName).map (fun s => s.idx)).Nodup := by
    rw [scoredList_map_idx]
    exact List.nodup_range _
  have hnodup : ((rankScored candidates contextName).map (fun s => s.idx)).Nodup :=
    ((hperm.map (fun s => s.idx)).nodup_iff).2 hnodupr
  have hpne : List.Pairwise (fun a b : Scored => a.idx ≠ b.idx)
      (rankScored candidates contextName) :=
    (List.pairwise_map).1 hnodup
  refine (hsorted.and hpne).imp ?_
  intro a b hab
  obtain ⟨hr, hne⟩ := hab
  unfold rankOrder at hr
  constructor
  · omega
  · intro hs
    rcases hr with h1 | ⟨h2, h3⟩
    · omega
    · omega

/-- C6: `rankCandidates` returns the list unchanged when its length is at
most the limit; otherwise it returns exactly `limit` items, the candidates
of the score-sorted list's prefix, whose scores are non-increasing with
ties kept in original DOM order, and every returned item is one of the
input candidates (no score-threshold filtering). -/
theorem rankCandidates_spec (candidates : List Candidate) (contextName : String) (limit : Nat) :
    (candidates.length ≤ limit → rankCandidates candidates contextName limit = candidates)
      ∧ (limit < candidates.length →
          (rankCandidates candidates contextName limit).length = limit
            ∧ rankCandidates candidates contextName limit
                = ((rankScored candidates contextName).take limit).map (fun s => s.cand)
            ∧ List.Pairwise
                (fun a b : Scored => b.score ≤ a.score ∧ (a.score = b.score → a.idx < b.idx))
                ((rankScored candidates contextName).take limit))
      ∧ (∀ x ∈ rankCandidates candidates contextName limit, x ∈ candidates) := by
  refine ⟨?_, ?_, ?_⟩
  · intro h
    unfold rankCandidates
    rw [if_pos h]
  · intro h
    have hnle : ¬ candidates.length ≤ limit := by omega
    refine ⟨?_, by unfold rankCandidates; rw [if_neg hnle], ?_⟩
    · unfold rankCandidates
      rw [if_neg hnle]
      rw [List.length_map, List.length_take, rankScored_length]
      omega
    · exact (rankScored_sorted_strict candidates contextName).sublist
        (List.take_sublist limit _)
  · intro x hx
    unfold rankCandidates at hx
    by_cases h : candidates.length ≤ limit
    · rw [if_pos h] at hx
      exact hx
    · rw [if_neg h] at hx
      obtain ⟨s, hs, rfl⟩ := List.mem_map.1 hx
      have hs2 : s ∈ rankScored candidates contextName :=
        (List.take_sublist limit _).mem hs
      have hs3 : s ∈ scoredList candidates contextName :=
        (List.perm_insertionSort rankOrder _).mem_iff.1 hs2
      have : s.cand ∈ (scoredList candidates contextName).map (fun s => s.cand) :=
        List.mem_map_of_mem _ hs3
      rw [scoredList_map_cand] at this
      exact this

/-! ## C2: pickValid -/

theorem pickValidGo_eq_find (probe : PageProbe) (l : List PlanCand) :
    pickValidGo probe l = l.find? (passesProbe probe) := by
  induction l with
  | nil => rfl
  | cons c rest ih =>
      cases hval : (validateStrategy c.strategy).isSome with
      | true => simp [pickValidGo, passesProbe, List.find?_cons, hval, ih]
      | false =>
          cases hb : buildLocator c.strategy with
          | error e => simp [pickValidGo, passesProbe, List.find?_cons, hval, hb, ih]
          | ok loc =>
              cases hc : probe.countOf loc with
              | error e =>
                  simp [pickValidGo, passesProbe, List.find?_cons, hval, hb, hc, ih]
              | ok count =>
                  by_cases hcnt : count = 1
                  · subst hcnt
                    cases hv : probe.visibleOf loc with
                    | error e =>
                        simp [pickValidGo, passesProbe, List.find?_cons,
                          hval, hb, hc, hv, ih]
                    | ok visible =>
                        cases visible <;>
                          simp [pickValidGo, passesProbe, List.find?_cons,
                            hval, hb, hc, hv, ih]
                  · simp [pickValidGo, passesProbe, List.find?_cons,
                      hval, hb, hc, hcnt, ih]

/-- C2: `pickValid` scans the first `maxAiTries` (default 4) candidates in
order and returns the first passing validation, a count of exactly 1, and
visibility; any returned candidate is from that prefix and satisfies all
three checks; if none passes it returns null. -/
theorem pickValid_spec (probe : PageProbe) (maxAiTries : Nat) (plan : HealPlanT) :
    pickValid probe maxAiTries plan
        = (plan.candidates.take maxAiTries).find? (passesProbe probe)
      ∧ (∀ c, pickValid probe maxAiTries plan = some c →
          c ∈ plan.candidates.take maxAiTries
            ∧ (validateStrategy c.strategy).isSome = false
            ∧ ∃ loc, buildLocator c.strategy = .ok loc
                ∧ probe.countOf loc = .ok 1
                ∧ probe.visibleOf loc = .ok true)
      ∧ maxAiTriesOf none = 4 := by
  refine ⟨pickValidGo_eq_find probe _, ?_, rfl⟩
  intro c hc
  rw [pickValid, pickValidGo_eq_find] at hc
  have hmem := List.mem_of_find?_eq_some hc
  have hpass : passesProbe probe c = true := List.find?_some hc
  refine ⟨hmem, ?_⟩
  unfold passesProbe at hpass
  rw [Bool.and_eq_true] at hpass
  obtain ⟨hval, hrest⟩ := hpass
  refine ⟨by simpa using hval, ?_⟩
  cases hb : buildLocator c.strategy with
  | error e => simp [hb] at hrest
  | ok loc =>
      simp only [hb] at hrest
      cases hcnt : probe.countOf loc with
      | error e => simp [hcnt] at hrest
      | ok count =>
          simp only [hcnt] at hrest
          by_cases h1 : count = 1
          · subst h1
            cases hv : probe.visibleOf loc with
            | error e => simp [hv] at hrest
            | ok visible =>
                cases visible with
                | false => simp [hv] at hrest
                | true => exact ⟨loc, rfl, hcnt, hv⟩
          · simp [h1] at hrest

/-! ## C1: healAction with no declared locator and healing disabled -/

/-- C1 (amended): when the declared target fails the locator validity test
(the empty-string sentinel) and healing is disabled, `healAction` does not
degrade to a native action: it performs nothing, consults no cache and no
AI, and throws the "AI detection requires healing to be enabled" error. -/
theorem healAction_disabled_aiOnly {L : Type} (env : HealEnv)
    (maxAiTries : Nat) (target : Target L) (contextName : String)
    (h : isValidLocator target = false) :
    healAction env false maxAiTries target contextName
      = (.error (.msg "AI detection requires healing to be enabled"), []) := by
  simp [healAction, h]

theorem healAction_disabled_aiOnly_witness :
    isValidLocator (Target.str (L := Unit) "") = false
      ∧ healAction envC1 false 4 (Target.str (L := Unit) "") "ctx"
          = (.error (.msg "AI detection requires healing to be enabled"), []) :=
  ⟨rfl, healAction_disabled_aiOnly envC1 4 (Target.str "") "ctx" rfl⟩

/-- C1 counterexample: the concrete run the claim describes — declared
target the empty-string sentinel, healing disabled — throws the
"AI detection requires healing to be enabled" error with an empty event
trace, instead of performing a native action. -/
theorem healAction_no_native_fallback_cex :
    healAction (L := Unit) envC1 false 4 (Target.str "") "ctx"
      = (.error (.msg "AI detection requires healing to be enabled"), []) := rfl

/-! ## C9: provider error routing -/

/-- C9 (amended): both backends rethrow transport errors to the caller,
but parse errors are caught and swallowed: content that fails the parse
step yields a successful null-plan result with the token usage, and a
missing or empty content does the same. -/
theorem provider_error_routing
    (parseO parseL : String → Except String HealPlanT) :
    (∀ e, generateHealPlanOpenAI parseO (.thrown e) = .error e
        ∧ generateHealPlanLocal parseL (.thrown e) = .error e)
      ∧ (∀ usage,
          generateHealPlanOpenAI parseO (.responded none usage) = .ok ⟨none, usage⟩
            ∧ generateHealPlanLocal parseL (.responded none usage) = .ok ⟨none, usage⟩)
      ∧ (∀ c usage m, c ≠ "" → parseO (cleanJson c) = .error m →
          generateHealPlanOpenAI parseO (.responded (some c) usage)
            = .ok ⟨none, usage⟩)
      ∧ (∀ c usage m, c ≠ "" → parseL (cleanJson c) = .error m →
          generateHealPlanLocal parseL (.responded (some c) usage)
            = .ok ⟨none, usage⟩)
      ∧ (∀ c usage plan, c ≠ "" → parseO (cleanJson c) = .ok plan →
          generateHealPlanOpenAI parseO (.responded (some c) usage)
            = .ok ⟨some plan, usage⟩) := by
  refine ⟨fun e => ⟨rfl, rfl⟩, fun usage => ⟨rfl, rfl⟩, ?_, ?_, ?_⟩
  · intro c usage m hc hp
    simp [generateHealPlanOpenAI, jsBlank, hc, hp]
  · intro c usage m hc hp
    simp [generateHealPlanLocal, jsBlank, hc, hp]
  · intro c usage plan hc hp
    simp [generateHealPlanOpenAI, jsBlank, hc, hp]

/-- C9 counterexample: a response whose content fails the parse step is
not propagated — both backends return a successful null-plan result, so
the retry controller never sees a parse error. -/
theorem provider_parse_error_swallowed_cex :
    generateHealPlanOpenAI (fun _ => .error "Unexpected token")
        (.responded (some "not json") none) = .ok ⟨none, none⟩
      ∧ generateHealPlanLocal (fun _ => .error "Unexpected token")
        (.responded (some "not json") none) = .ok ⟨none, none⟩ :=
  ⟨rfl, rfl⟩

/-! ## C7 counterexample -/

/-- C7 counterexample: a string that already parses as JSON on which
`cleanJson` is not a no-op — the block-comment strip rewrites the contents
of a JSON string literal. -/
theorem cleanJson_not_noop_on_valid_cex :
    jsonValid ("\x7b\"a\":\"/*x*/\"\x7d").toList = true
      ∧ cleanJson "\x7b\"a\":\"/*x*/\"\x7d" = "\x7b\"a\":\"\"\x7d"
      ∧ cleanJson "\x7b\"a\":\"/*x*/\"\x7d" ≠ "\x7b\"a\":\"/*x*/\"\x7d" :=
  ⟨by decide, by decide, by decide⟩

/-! ## C10: the testid CSS union locator -/

/-- C10: `buildLocator` on a testid strategy with a non-empty value builds
the five-way CSS attribute union over data-testid, data-test, data-test-id,
data-qa and data-cy (double quotes in the value backslash-escaped), and
under the attribute-selector semantics an element matches that union
exactly when at least one of the five attributes equals the value. -/
theorem buildLocator_testid_union (v : String) (el : List (String × String))
    (hne : jsBlank (some v) = false) (hb : '\\' ∉ v.toList) :
    buildLocator { type := .testid, value := some v, selector := none,
                   role := none, name := none, text := none, exact := none }
        = .ok (.cssLoc (testidSelector v))
      ∧ cssMatches (testidSelector v) el
          = some ((getAttr el "data-testid" == some v)
              || ((getAttr el "data-test" == some v)
              || ((getAttr el "data-test-id" == some v)
              || ((getAttr el "data-qa" == some v)
              || (getAttr el "data-cy" == some v))))) := by
  constructor
  · simp [buildLocator, hne]
  · unfold cssMatches
    rw [parseAttrSelectors_testid v hb]
    simp [List.any_cons, List.any_nil, Bool.or_assoc]

theorem buildLocator_testid_union_witness :
    jsBlank (some "x") = false ∧ '\\' ∉ "x".toList
      ∧ (buildLocator { type := .testid, value := some "x", selector := none,
                        role := none, name := none, text := none, exact := none }
            = .ok (.cssLoc (testidSelector "x"))
          ∧ cssMatches (testidSelector "x") [("data-test", "x")]
              = some ((getAttr [("data-test", "x")] "data-testid" == some "x")
                  || ((getAttr [("data-test", "x")] "data-test" == some "x")
                  || ((getAttr [("data-test", "x")] "data-test-id" == some "x")
                  || ((getAttr [("data-test", "x")] "data-qa" == some "x")
                  || (getAttr [("data-test", "x")] "data-cy" == some "x")))))) :=
  ⟨by decide, by decide,
    buildLocator_testid_union "x" [("data-test", "x")] (by decide) (by decide)⟩

end Healwright
